import Mathlib

/-!
Shallow embedding of `track_check.py` from the `gene_sketch` repository.

The module has three functions:
* `read_track_file` parses a tab-separated file into a per-gene list of
  `(track, position)` pairs, each gene's list sorted (stably) by position;
* `check_overlap` scans a marker list once, splitting it into an
  `overlap` and a `not_overlap` list against a running previous position
  initialised to the sentinel `-100000`;
* `overlap_recursive` iterates `check_overlap` on the overflow via a
  `while len(overlap) > 1: ... else: ...` loop, collecting the accepted
  list of every pass (plus the final leftover) into a list of lanes.

Python `assert` failures are modelled by `Option`/`Except` errors, and the
`while` loop — which need not terminate for positions at or below
`minimum - 100000` — is given explicit fuel; exhausting the fuel is
reported as `PartErr.OutOfFuel` and never happens for the inputs the
callers supply (sorted, non-negative positions).
-/

/-- A marker, i.e. one of the `(track_name, position)` tuples of the source. -/
abbrev Marker := String × Int

/-- The scanning loop of `check_overlap`: classify each element of the list
against the running `prev_track` position (`prev`), sending it to the
`overlap` (first) component when `track[1] - prev_track <= minimum` and to
the `not_overlap` (second) component otherwise; in both cases `prev_track`
becomes the scanned element's position for the rest of the scan. -/
def checkScan (minimum prev : Int) : List Marker → List Marker × List Marker
  | [] => ([], [])
  | t :: rest =>
    let r := checkScan minimum t.2 rest
    if t.2 - prev ≤ minimum then (t :: r.1, r.2) else (r.1, t :: r.2)

/-- `check_overlap(gene_track_list, minimum=5000)`.  The leading
`assert len(gene_track_list) > 1` is modelled by returning `none` (the
`AssertionError`); otherwise the scan starts from `prev_track = -100000`
and the pair `(overlap, not_overlap)` is returned. -/
def check_overlap (gene_track_list : List Marker) (minimum : Int := 5000) :
    Option (List Marker × List Marker) :=
  if 1 < gene_track_list.length then
    some (checkScan minimum (-100000) gene_track_list)
  else
    none

/-- Errors of `overlap_recursive`: the failed `assert` (fewer than two
markers), and fuel exhaustion standing for a non-terminating `while` loop. -/
inductive PartErr
  | PreconditionError
  | OutOfFuel
  deriving DecidableEq, Repr

/-- The `while len(overlap) > 1: overlap, not_overlap = check_overlap(overlap);
final_tracks.append(not_overlap)` loop of `overlap_recursive`, together with
its `else: final_tracks.append(overlap)` clause.  In Python the `else` of a
`while` runs exactly when the loop exits because its condition became false,
so the leftover `overlap` — a singleton or the empty list — is appended as
one more lane. -/
def overlapLoop : Nat → List Marker → List (List Marker) →
    Except PartErr (List (List Marker))
  | 0, _, _ => .error .OutOfFuel
  | fuel + 1, overlap, final_tracks =>
    if 1 < overlap.length then
      match check_overlap overlap 5000 with
      | some (overlap2, not_overlap) =>
          overlapLoop fuel overlap2 (final_tracks ++ [not_overlap])
      | none => .error .PreconditionError
    else
      .ok (final_tracks ++ [overlap])

/-- `overlap_recursive(gene_track_list)`: assert more than one element, run a
first `check_overlap` pass (always with the default `minimum = 5000`), seed
`final_tracks = [not_overlap]`, and — only when the overflow is not empty —
run the `while`/`else` loop on it.  The fuel `gene_track_list.length` is
enough for every input with non-negative positions. -/
def overlap_recursive (gene_track_list : List Marker) :
    Except PartErr (List (List Marker)) :=
  if 1 < gene_track_list.length then
    match check_overlap gene_track_list 5000 with
    | some (overlap, not_overlap) =>
        if overlap = [] then .ok [not_overlap]
        else overlapLoop gene_track_list.length overlap [not_overlap]
    | none => .error .PreconditionError
  else .error .PreconditionError

/-- Ghost data (not part of the source): the chain of overflow lists fed into
the successive `check_overlap` passes of `overlapLoop`, ending with the
leftover list that the `else` clause appends unprocessed. -/
def passFeeds : Nat → List Marker → List (List Marker)
  | 0, _ => []
  | fuel + 1, overlap =>
    if 1 < overlap.length then
      overlap :: passFeeds fuel (checkScan 5000 (-100000) overlap).1
    else
      [overlap]

/-- The whitespace characters that Python's `str.strip()` (and `int()`)
discard. -/
def pySpace (c : Char) : Bool :=
  c == ' ' || c == '\t' || c == '\n' || c == '\x0d' || c == '\x0b' || c == '\x0c'

/-- Python's `str.strip()`: drop leading and trailing whitespace. -/
def pyStrip (l : List Char) : List Char :=
  ((l.dropWhile pySpace).reverse.dropWhile pySpace).reverse

/-- Python's `str.split(sep)` for a one-character separator: cut the string at
every occurrence of `sep` (the result always has one more part than there are
separators, so it is never empty). -/
def splitOnChar (sep : Char) : List Char → List (List Char)
  | [] => [[]]
  | c :: rest =>
    match splitOnChar sep rest with
    | [] => [[c]]
    | h :: t => if c = sep then [] :: h :: t else (c :: h) :: t

/-- The lines produced by iterating over a Python file object whose content is
`s`: split on newlines, with no trailing empty line for a newline-terminated
file. -/
def pyLines (s : String) : List String :=
  let parts := (splitOnChar '\n' s.data).map String.mk
  if parts.getLast? = some "" then parts.dropLast else parts

/-- The numeric value of a non-empty all-digit character run, `none` for any
other run. -/
def digitsVal (l : List Char) : Option Nat :=
  if l ≠ [] ∧ l.all Char.isDigit then
    some (l.foldl (fun acc c => 10 * acc + (c.toNat - 48)) 0)
  else none

/-- Python's `int(s)` on a string: optional surrounding whitespace, an
optional sign, then a non-empty run of digits; anything else raises
`ValueError` (`none`). -/
def pyInt? (l : List Char) : Option Int :=
  match pyStrip l with
  | '-' :: ds => (digitsVal ds).map (fun n => -(n : Int))
  | '+' :: ds => (digitsVal ds).map (fun n => (n : Int))
  | ds => (digitsVal ds).map (fun n => (n : Int))

/-- One line of the loader's loop:
`data = line.strip().split("\t"); gene, track, track_pos = data[0], data[1],
int(data[2])`.  A line with fewer than three tab-separated fields raises
`IndexError` and a non-integer third field raises `ValueError` (both
`none`); fields beyond the third are ignored. -/
def parseLine (line : String) : Option (String × String × Int) :=
  match splitOnChar '\t' (pyStrip line.data) with
  | gene :: track :: pos :: _ =>
      (pyInt? pos).map (fun n => (String.mk gene, String.mk track, n))
  | _ => none

/-- `track_info[gene].append((track, track_pos))` with creation of the entry
when the gene is not yet a key; the mapping is kept as an association list
in first-insertion order. -/
def addTrack (track_info : List (String × List (String × Int)))
    (gene track : String) (pos : Int) : List (String × List (String × Int)) :=
  match track_info with
  | [] => [(gene, [(track, pos)])]
  | (g, l) :: rest =>
    if g = gene then (g, l ++ [(track, pos)]) :: rest
    else (g, l) :: addTrack rest gene track pos

/-- The loader's `for line in f` loop: parse the lines in order, building
`track_info`; the first malformed line raises, which is modelled by
returning that line as the error (no partial result). -/
def read_track_lines (lines : List String)
    (track_info : List (String × List (String × Int))) :
    Except String (List (String × List (String × Int))) :=
  match lines with
  | [] => .ok track_info
  | line :: rest =>
    match parseLine line with
    | none => .error line
    | some (gene, track, pos) => read_track_lines rest (addTrack track_info gene track pos)

/-- Insert a marker into a list, before the first element of greater or equal
position: this is the insertion step of a stable sort by position. -/
def insertByPos (x : String × Int) : List (String × Int) → List (String × Int)
  | [] => [x]
  | y :: ys => if x.2 ≤ y.2 then x :: y :: ys else y :: insertByPos x ys

/-- Python's `sorted(tracks, key=itemgetter(1))`: a stable sort by position,
modelled by stable insertion sort (Python's sort is stable, and all stable
sorts by the same key agree). -/
def sortByPos : List (String × Int) → List (String × Int)
  | [] => []
  | x :: xs => insertByPos x (sortByPos xs)

/-- `read_track_file(track_file)`: iterate over the lines of the file,
fail-fast on a malformed record, then sort every gene's track list by
position. -/
def read_track_file (track_file : String) :
    Except String (List (String × List (String × Int))) :=
  match read_track_lines (pyLines track_file) [] with
  | .error line => .error line
  | .ok track_info => .ok (track_info.map (fun gl => (gl.1, sortByPos gl.2)))

/-- Specification-side predicate: the list is sorted ascending by position
(the precondition the loader establishes for the partitioner). -/
def SortedByPos (l : List Marker) : Prop :=
  l.Pairwise (fun a b => a.2 ≤ b.2)

/-- Specification-side predicate: all positions are non-negative. -/
def NonNegPos (l : List Marker) : Prop :=
  ∀ x ∈ l, 0 ≤ x.2

/-- Specification-side ghost (the raw per-gene record list): the `(track,
position)` pairs of the parseable lines naming gene `g`, in source order. -/
def geneRecs (lines : List String) (g : String) : List (String × Int) :=
  lines.filterMap (fun line =>
    match parseLine line with
    | some (gene, track, pos) => if gene = g then some (track, pos) else none
    | none => none)

deriving instance DecidableEq for Except

/-- Specification-side helper: dictionary lookup in the association list
modelling `track_info` (Python's `track_info[gene]` / `gene in track_info`). -/
def lookupGene (g : String) :
    List (String × List (String × Int)) → Option (List (String × Int))
  | [] => none
  | (g2, l) :: rest => if g2 = g then some l else lookupGene g rest

/-- Specification-side invariant: the association list has pairwise distinct
keys, as a Python dictionary does. -/
def KeysNodup (track_info : List (String × List (String × Int))) : Prop :=
  (track_info.map Prod.fst).Nodup

instance : DecidablePred SortedByPos := fun l =>
  inferInstanceAs (Decidable (l.Pairwise _))

instance : DecidablePred NonNegPos := fun l =>
  inferInstanceAs (Decidable (∀ x ∈ l, _))

/-! ### Facts about the single scanning pass -/

theorem checkScan_cons (m prev : Int) (t : Marker) (rest : List Marker) :
    checkScan m prev (t :: rest) =
      if t.2 - prev ≤ m then
        (t :: (checkScan m t.2 rest).1, (checkScan m t.2 rest).2)
      else
        ((checkScan m t.2 rest).1, t :: (checkScan m t.2 rest).2) := rfl

theorem checkScan_perm (m : Int) (l : List Marker) : ∀ prev : Int,
    List.Perm ((checkScan m prev l).1 ++ (checkScan m prev l).2) l := by
  induction l with
  | nil => intro prev; simp [checkScan]
  | cons t rest ih =>
    intro prev
    rw [checkScan_cons]
    by_cases h : t.2 - prev ≤ m
    · rw [if_pos h]
      exact (ih t.2).cons t
    · rw [if_neg h]
      exact List.perm_middle.trans ((ih t.2).cons t)

theorem checkScan_fst_sublist (m : Int) (l : List Marker) : ∀ prev : Int,
    ((checkScan m prev l).1).Sublist l := by
  induction l with
  | nil => intro prev; simp [checkScan]
  | cons t rest ih =>
    intro prev
    rw [checkScan_cons]
    by_cases h : t.2 - prev ≤ m
    · rw [if_pos h]; exact (ih t.2).cons₂ t
    · rw [if_neg h]; exact (ih t.2).cons t

theorem checkScan_snd_sublist (m : Int) (l : List Marker) : ∀ prev : Int,
    ((checkScan m prev l).2).Sublist l := by
  induction l with
  | nil => intro prev; simp [checkScan]
  | cons t rest ih =>
    intro prev
    rw [checkScan_cons]
    by_cases h : t.2 - prev ≤ m
    · rw [if_pos h]; exact (ih t.2).cons t
    · rw [if_neg h]; exact (ih t.2).cons₂ t

theorem checkScan_length (m : Int) (l : List Marker) : ∀ prev : Int,
    ((checkScan m prev l).1).length + ((checkScan m prev l).2).length = l.length := by
  intro prev
  have := (checkScan_perm m l prev).length_eq
  simpa using this

/-- The first scanned element is accepted whenever its gap to `prev` exceeds
`minimum`, and then the overflow list is strictly shorter than the input. -/
theorem checkScan_fst_length_lt (m prev : Int) (t : Marker) (rest : List Marker)
    (h : ¬ t.2 - prev ≤ m) :
    ((checkScan m prev (t :: rest)).1).length < (t :: rest).length := by
  rw [checkScan_cons, if_neg h]
  have hle := (checkScan_fst_sublist m rest t.2).length_le
  simpa using Nat.lt_succ_of_le hle

/-- With the sentinel `-100000`, the default `minimum = 5000` and a
non-negative first position, the overflow of a pass is strictly shorter than
its input. -/
theorem checkScan_default_length_lt (l : List Marker)
    (hne : l ≠ []) (hpos : NonNegPos l) :
    ((checkScan 5000 (-100000) l).1).length < l.length := by
  match l, hne with
  | t :: rest, _ =>
    have h0 : (0 : Int) ≤ t.2 := hpos t (by simp)
    exact checkScan_fst_length_lt 5000 (-100000) t rest (by omega)

/-- Every element accepted during a scan of a sorted list whose positions all
dominate `prev` lies more than `m` above `prev`. -/
theorem checkScan_snd_gap (m : Int) (l : List Marker) : ∀ prev : Int,
    l.Pairwise (fun a b => a.2 ≤ b.2) → (∀ x ∈ l, prev ≤ x.2) →
    ∀ z ∈ (checkScan m prev l).2, m < z.2 - prev := by
  induction l with
  | nil => intro prev _ _ z hz; simp [checkScan] at hz
  | cons t rest ih =>
    intro prev hsort hdom z hz
    have hrest : rest.Pairwise (fun a b => a.2 ≤ b.2) := (List.pairwise_cons.mp hsort).2
    have hdomt : ∀ x ∈ rest, t.2 ≤ x.2 := (List.pairwise_cons.mp hsort).1
    have hpt : prev ≤ t.2 := hdom t (by simp)
    rw [checkScan_cons] at hz
    by_cases h : t.2 - prev ≤ m
    · rw [if_pos h] at hz
      have := ih t.2 hrest hdomt z hz
      omega
    · rw [if_neg h] at hz
      rcases List.mem_cons.mp hz with hz | hz
      · subst hz; omega
      · have := ih t.2 hrest hdomt z hz
        omega

/-- Any two elements accepted into the same pass of a sorted list, in the
order accepted, are more than `m` apart: the later one was accepted against
an immediately-preceding scanned position at least as large as the earlier
one's. -/
theorem checkScan_snd_sep (m : Int) (l : List Marker) : ∀ (prev : Int) (a b : Marker),
    l.Pairwise (fun a b => a.2 ≤ b.2) →
    [a, b].Sublist (checkScan m prev l).2 → m < b.2 - a.2 := by
  induction l with
  | nil => intro prev a b _ hsub; simp [checkScan] at hsub
  | cons t rest ih =>
    intro prev a b hsort hsub
    have hrest : rest.Pairwise (fun a b => a.2 ≤ b.2) := (List.pairwise_cons.mp hsort).2
    have hdomt : ∀ x ∈ rest, t.2 ≤ x.2 := (List.pairwise_cons.mp hsort).1
    rw [checkScan_cons] at hsub
    by_cases h : t.2 - prev ≤ m
    · rw [if_pos h] at hsub
      exact ih t.2 a b hrest hsub
    · rw [if_neg h] at hsub
      cases hsub with
      | cons _ hsub => exact ih t.2 a b hrest hsub
      | cons₂ _ hsub =>
        have hb : b ∈ (checkScan m t.2 rest).2 := List.singleton_sublist.mp hsub
        exact checkScan_snd_gap m rest t.2 hrest hdomt b hb

/-! ### Facts about the `while`/`else` loop -/

theorem overlapLoop_succ_pos (fuel : Nat) (ov : List Marker)
    (acc : List (List Marker)) (h : 1 < ov.length) :
    overlapLoop (fuel + 1) ov acc =
      overlapLoop fuel (checkScan 5000 (-100000) ov).1
        (acc ++ [(checkScan 5000 (-100000) ov).2]) := by
  show (if 1 < ov.length then _ else _) = _
  rw [if_pos h]
  show (match check_overlap ov 5000 with
        | some (overlap2, not_overlap) => overlapLoop fuel overlap2 (acc ++ [not_overlap])
        | none => Except.error PartErr.PreconditionError) = _
  rw [check_overlap, if_pos h]

theorem overlapLoop_succ_neg (fuel : Nat) (ov : List Marker)
    (acc : List (List Marker)) (h : ¬ 1 < ov.length) :
    overlapLoop (fuel + 1) ov acc = .ok (acc ++ [ov]) := by
  show (if 1 < ov.length then _ else _) = _
  rw [if_neg h]

theorem passFeeds_succ_pos (fuel : Nat) (ov : List Marker) (h : 1 < ov.length) :
    passFeeds (fuel + 1) ov = ov :: passFeeds fuel (checkScan 5000 (-100000) ov).1 := by
  show (if 1 < ov.length then _ else _) = _
  rw [if_pos h]

theorem passFeeds_succ_neg (fuel : Nat) (ov : List Marker) (h : ¬ 1 < ov.length) :
    passFeeds (fuel + 1) ov = [ov] := by
  show (if 1 < ov.length then _ else _) = _
  rw [if_neg h]

/-- With enough fuel, non-negative positions guarantee the loop reaches the
`else` clause: the overflow strictly shrinks on every iteration. -/
theorem overlapLoop_ok (fuel : Nat) : ∀ (ov : List Marker) (acc : List (List Marker)),
    NonNegPos ov → 1 ≤ ov.length → ov.length ≤ fuel →
    ∃ res, overlapLoop fuel ov acc = .ok res := by
  induction fuel with
  | zero => intro ov acc _ h1 h2; omega
  | succ fuel ih =>
    intro ov acc hpos h1 h2
    by_cases h : 1 < ov.length
    · rw [overlapLoop_succ_pos fuel ov acc h]
      have hne : ov ≠ [] := by intro he; rw [he] at h1; simp at h1
      have hlt := checkScan_default_length_lt ov hne hpos
      have hpos2 : NonNegPos (checkScan 5000 (-100000) ov).1 := fun x hx =>
        hpos x ((checkScan_fst_sublist 5000 ov (-100000)).mem hx)
      by_cases he2 : (checkScan 5000 (-100000) ov).1 = []
      · rw [he2]
        have hf : 1 ≤ fuel := by omega
        match fuel, hf with
        | f + 1, _ => exact ⟨_, overlapLoop_succ_neg f [] _ (by simp)⟩
      · have h12 : 1 ≤ (checkScan 5000 (-100000) ov).1.length := by
          have := List.length_pos.mpr he2
          omega
        exact ih _ _ hpos2 h12 (by omega)
    · exact ⟨acc ++ [ov], overlapLoop_succ_neg fuel ov acc h⟩

/-- Whatever the loop returns extends the accumulator, lane sizes are bounded
by the overflow lists fed into the passes, and there are as many appended
lanes as feeds. -/
theorem overlapLoop_shape (fuel : Nat) : ∀ (ov : List Marker)
    (acc res : List (List Marker)), overlapLoop fuel ov acc = .ok res →
    ∃ tail, res = acc ++ tail ∧ tail.length = (passFeeds fuel ov).length ∧
      ∀ j, ((tail.getD j []).length ≤ ((passFeeds fuel ov).getD j []).length) := by
  induction fuel with
  | zero => intro ov acc res h; exact absurd h (by simp [overlapLoop])
  | succ fuel ih =>
    intro ov acc res h
    by_cases hg : 1 < ov.length
    · rw [overlapLoop_succ_pos fuel ov acc hg] at h
      obtain ⟨tail, htail, hlen, hbd⟩ := ih _ _ _ h
      refine ⟨(checkScan 5000 (-100000) ov).2 :: tail, by simpa using htail, ?_, ?_⟩
      · rw [passFeeds_succ_pos fuel ov hg]
        simpa using hlen
      · intro j
        rw [passFeeds_succ_pos fuel ov hg]
        cases j with
        | zero =>
          have := checkScan_length 5000 ov (-100000)
          simp only [List.getD_cons_zero]
          omega
        | succ j => simpa using hbd j
    · rw [overlapLoop_succ_neg fuel ov acc hg] at h
      cases h
      refine ⟨[ov], rfl, by rw [passFeeds_succ_neg fuel ov hg], ?_⟩
      intro j
      rw [passFeeds_succ_neg fuel ov hg]

/-- Multiset completeness of the loop: joining the result permutes the joined
accumulator followed by the pending overflow. -/
theorem overlapLoop_flatten (fuel : Nat) : ∀ (ov : List Marker)
    (acc res : List (List Marker)), overlapLoop fuel ov acc = .ok res →
    List.Perm res.flatten (acc.flatten ++ ov) := by
  induction fuel with
  | zero => intro ov acc res h; exact absurd h (by simp [overlapLoop])
  | succ fuel ih =>
    intro ov acc res h
    by_cases hg : 1 < ov.length
    · rw [overlapLoop_succ_pos fuel ov acc hg] at h
      have hperm := ih _ _ _ h
      have hpass := checkScan_perm 5000 ov (-100000)
      have heq : (acc ++ [(checkScan 5000 (-100000) ov).2]).flatten ++
          (checkScan 5000 (-100000) ov).1 =
          acc.flatten ++ ((checkScan 5000 (-100000) ov).2 ++
            (checkScan 5000 (-100000) ov).1) := by simp
      rw [heq] at hperm
      have hcomm : List.Perm
          ((checkScan 5000 (-100000) ov).2 ++ (checkScan 5000 (-100000) ov).1) ov :=
        List.perm_append_comm.trans hpass
      exact hperm.trans (List.Perm.append_left acc.flatten hcomm)
    · rw [overlapLoop_succ_neg fuel ov acc hg] at h
      cases h
      have heq : (acc ++ [ov]).flatten = acc.flatten ++ ov := by simp
      rw [heq]

/-- Every lane the loop ever appends is either already in the accumulator, or
the accepted list of a pass over a sorted list, or the short leftover. -/
theorem overlapLoop_mem (fuel : Nat) : ∀ (ov : List Marker)
    (acc res : List (List Marker)),
    ov.Pairwise (fun a b => a.2 ≤ b.2) →
    overlapLoop fuel ov acc = .ok res →
    ∀ L ∈ res, L ∈ acc ∨
      (∃ p : List Marker, p.Pairwise (fun a b => a.2 ≤ b.2) ∧
        L = (checkScan 5000 (-100000) p).2) ∨ L.length ≤ 1 := by
  induction fuel with
  | zero => intro ov acc res _ h; exact absurd h (by simp [overlapLoop])
  | succ fuel ih =>
    intro ov acc res hsort h L hL
    by_cases hg : 1 < ov.length
    · rw [overlapLoop_succ_pos fuel ov acc hg] at h
      have hsort2 : ((checkScan 5000 (-100000) ov).1).Pairwise (fun a b => a.2 ≤ b.2) :=
        hsort.sublist (checkScan_fst_sublist 5000 ov (-100000))
      rcases ih _ _ _ hsort2 h L hL with hin | hrest | hshort
      · rcases List.mem_append.mp hin with hin | hin
        · exact Or.inl hin
        · exact Or.inr (Or.inl ⟨ov, hsort, List.mem_singleton.mp hin⟩)
      · exact Or.inr (Or.inl hrest)
      · exact Or.inr (Or.inr hshort)
    · rw [overlapLoop_succ_neg fuel ov acc hg] at h
      cases h
      rcases List.mem_append.mp hL with hin | hin
      · exact Or.inl hin
      · refine Or.inr (Or.inr ?_)
        have hLov : L = ov := by simpa using hin
        rw [hLov]
        omega

theorem passFeeds_nil_length (fuel : Nat) : (passFeeds fuel []).length ≤ 1 := by
  cases fuel with
  | zero => simp [passFeeds]
  | succ fuel => rw [passFeeds_succ_neg fuel [] (by simp)]; simp

/-- With non-negative positions the loop performs at most as many passes as
the first overflow has elements (the leftover entry included). -/
theorem passFeeds_length (fuel : Nat) : ∀ ov : List Marker,
    NonNegPos ov → 1 ≤ ov.length → ov.length ≤ fuel →
    (passFeeds fuel ov).length ≤ ov.length := by
  induction fuel with
  | zero => intro ov _ h1 h2; omega
  | succ fuel ih =>
    intro ov hpos h1 h2
    by_cases hg : 1 < ov.length
    · rw [passFeeds_succ_pos fuel ov hg]
      have hne : ov ≠ [] := by intro he; rw [he] at h1; simp at h1
      have hlt := checkScan_default_length_lt ov hne hpos
      have hpos2 : NonNegPos (checkScan 5000 (-100000) ov).1 := fun x hx =>
        hpos x ((checkScan_fst_sublist 5000 ov (-100000)).mem hx)
      by_cases he2 : (checkScan 5000 (-100000) ov).1 = []
      · rw [he2]
        have := passFeeds_nil_length fuel
        simp only [List.length_cons]
        omega
      · have h12 : 1 ≤ (checkScan 5000 (-100000) ov).1.length := by
          have := List.length_pos.mpr he2
          omega
        have := ih _ hpos2 h12 (by omega)
        simp only [List.length_cons]
        omega
    · rw [passFeeds_succ_neg fuel ov hg]
      simpa using h1

/-! ### Facts about `overlap_recursive` itself -/

theorem overlap_recursive_neg (l : List Marker) (h : ¬ 1 < l.length) :
    overlap_recursive l = .error .PreconditionError := by
  show (if 1 < l.length then _ else _) = _
  rw [if_neg h]

theorem overlap_recursive_pos (l : List Marker) (h : 1 < l.length) :
    overlap_recursive l =
      (if (checkScan 5000 (-100000) l).1 = [] then
        Except.ok [(checkScan 5000 (-100000) l).2]
      else
        overlapLoop l.length (checkScan 5000 (-100000) l).1
          [(checkScan 5000 (-100000) l).2]) := by
  show (if 1 < l.length then _ else _) = _
  rw [if_pos h]
  show (match check_overlap l 5000 with
        | some (overlap, not_overlap) =>
            if overlap = [] then Except.ok [not_overlap]
            else overlapLoop l.length overlap [not_overlap]
        | none => Except.error PartErr.PreconditionError) = _
  rw [check_overlap, if_pos h]

/-- Success of the partitioner on sorted-free preconditions: at least two
markers and non-negative positions are enough. -/
theorem overlap_recursive_isOk (l : List Marker)
    (hpos : NonNegPos l) (hlen : 2 ≤ l.length) :
    ∃ lanes, overlap_recursive l = .ok lanes := by
  have h1 : 1 < l.length := hlen
  rw [overlap_recursive_pos l h1]
  by_cases he : (checkScan 5000 (-100000) l).1 = []
  · rw [if_pos he]
    exact ⟨_, rfl⟩
  · rw [if_neg he]
    have hpos2 : NonNegPos (checkScan 5000 (-100000) l).1 := fun x hx =>
      hpos x ((checkScan_fst_sublist 5000 l (-100000)).mem hx)
    have h12 : 1 ≤ (checkScan 5000 (-100000) l).1.length := by
      have := List.length_pos.mpr he
      omega
    exact overlapLoop_ok l.length _ _ hpos2 h12
      (checkScan_fst_sublist 5000 l (-100000)).length_le

/-! ### Claim theorems for the partitioner -/

/-- **C1.** Evaluating the partitioner at the spec's concrete scenario: after
pass 2 the overflow is empty, but the `else` clause of the Python
`while` loop still runs on this exit and appends the (empty) leftover, so the
code returns `[[A,C],[B,D],[]]` — an extra empty lane — where the spec
promises `[[A,C],[B,D]]` and no extra lane. -/
theorem c1_empty_overflow_extra_lane :
    overlap_recursive [("A", 100), ("B", 200), ("C", 6000), ("D", 6050)] =
      .ok [[("A", 100), ("C", 6000)], [("B", 200), ("D", 6050)], []] := by
  decide

/-- **C2.** Completeness: whenever the partitioner succeeds on a sorted list
of at least two markers, the markers of all lanes taken together are a
permutation (equal multiset) of the input — nothing dropped, nothing
duplicated. -/
theorem c2_completeness (l : List Marker) (lanes : List (List Marker))
    (hsort : SortedByPos l) (hlen : 2 ≤ l.length)
    (hres : overlap_recursive l = .ok lanes) :
    List.Perm lanes.flatten l := by
  have h1 : 1 < l.length := hlen
  rw [overlap_recursive_pos l h1] at hres
  by_cases he : (checkScan 5000 (-100000) l).1 = []
  · rw [if_pos he] at hres
    injection hres with hres
    subst hres
    have hperm := checkScan_perm 5000 l (-100000)
    rw [he] at hperm
    simpa using hperm
  · rw [if_neg he] at hres
    have hlp := overlapLoop_flatten l.length _ _ _ hres
    have heq : ([(checkScan 5000 (-100000) l).2] :
        List (List Marker)).flatten = (checkScan 5000 (-100000) l).2 := by simp
    rw [heq] at hlp
    exact hlp.trans (List.perm_append_comm.trans (checkScan_perm 5000 l (-100000)))

/-- Witness for `c2_completeness` at the spec's concrete scenario. -/
theorem c2_completeness_witness :
    List.Perm ([[("A", 100), ("C", 6000)], [("B", 200), ("D", 6050)],
      ([] : List Marker)] : List (List Marker)).flatten
      [("A", 100), ("B", 200), ("C", 6000), ("D", 6050)] :=
  c2_completeness _ _ (by decide) (by decide) (by decide)

/-- **C4.** The partitioner fails with its precondition error exactly on
inputs of fewer than two markers (and so does `check_overlap`), and succeeds
— no error from any internal pass either — on every sorted list of at least
two markers with non-negative positions. -/
theorem c4_precondition_error (l : List Marker)
    (hsort : SortedByPos l) (hpos : NonNegPos l) :
    (overlap_recursive l = .error PartErr.PreconditionError ↔ l.length < 2) ∧
    (check_overlap l 5000 = none ↔ l.length < 2) ∧
    (2 ≤ l.length → ∃ lanes, overlap_recursive l = .ok lanes) := by
  refine ⟨?_, ?_, fun h => overlap_recursive_isOk l hpos h⟩
  · constructor
    · intro herr
      by_contra hc
      obtain ⟨lanes, hok⟩ := overlap_recursive_isOk l hpos (by omega)
      rw [hok] at herr
      cases herr
    · intro hlt
      exact overlap_recursive_neg l (by omega)
  · by_cases h : 1 < l.length
    · rw [check_overlap, if_pos h]
      constructor
      · intro hc; cases hc
      · intro hc; omega
    · rw [check_overlap, if_neg h]
      constructor
      · intro _; omega
      · intro _; rfl

/-- Witness for `c4_precondition_error`: the single-marker list of the spec's
scenario raises, and a two-marker list succeeds. -/
theorem c4_precondition_error_witness :
    (overlap_recursive [("A", 50)] = .error PartErr.PreconditionError ↔
      [(("A", 50) : Marker)].length < 2) ∧
    (check_overlap [("A", 50)] 5000 = none ↔ [(("A", 50) : Marker)].length < 2) ∧
    (2 ≤ [(("A", 50) : Marker)].length →
      ∃ lanes, overlap_recursive [("A", 50)] = .ok lanes) :=
  c4_precondition_error [("A", 50)] (by decide) (by decide)

/-- **C5.** Progress and termination: on a sorted list of at least two
markers with non-negative positions, every pass (its input is always a
non-empty sublist of the input) rejects strictly fewer markers than it was
fed, the first scanned marker being always accepted; consequently the
partitioner succeeds, and — counting the first pass together with the loop
passes recorded by `passFeeds` — it runs at most `n - 1` passes. -/
theorem c5_progress_termination (l : List Marker)
    (hsort : SortedByPos l) (hpos : NonNegPos l) (hlen : 2 ≤ l.length) :
    (∀ p : List Marker, p.Sublist l → p ≠ [] →
      ((checkScan 5000 (-100000) p).1).length < p.length) ∧
    (∃ lanes, overlap_recursive l = .ok lanes) ∧
    ((checkScan 5000 (-100000) l).1 ≠ [] →
      (passFeeds l.length (checkScan 5000 (-100000) l).1).length ≤ l.length - 1) := by
  refine ⟨?_, overlap_recursive_isOk l hpos hlen, ?_⟩
  · intro p hsub hne
    exact checkScan_default_length_lt p hne (fun x hx => hpos x (hsub.mem hx))
  · intro hne
    have hsub := checkScan_fst_sublist 5000 l (-100000)
    have hpos2 : NonNegPos (checkScan 5000 (-100000) l).1 := fun x hx =>
      hpos x (hsub.mem hx)
    have h12 : 1 ≤ (checkScan 5000 (-100000) l).1.length := by
      have := List.length_pos.mpr hne
      omega
    have hlt : (checkScan 5000 (-100000) l).1.length < l.length :=
      checkScan_default_length_lt l (by intro he; rw [he] at hlen; simp at hlen) hpos
    have := passFeeds_length l.length _ hpos2 h12 (by omega)
    omega

/-- Witness for `c5_progress_termination` at the spec's concrete scenario. -/
theorem c5_progress_termination_witness :
    (∀ p : List Marker,
      p.Sublist [("A", 100), ("B", 200), ("C", 6000), ("D", 6050)] → p ≠ [] →
      ((checkScan 5000 (-100000) p).1).length < p.length) ∧
    (∃ lanes, overlap_recursive [("A", 100), ("B", 200), ("C", 6000), ("D", 6050)] =
      .ok lanes) ∧
    ((checkScan 5000 (-100000)
        [("A", 100), ("B", 200), ("C", 6000), ("D", 6050)]).1 ≠ [] →
      (passFeeds [(("A", 100) : Marker), ("B", 200), ("C", 6000), ("D", 6050)].length
        (checkScan 5000 (-100000)
          [("A", 100), ("B", 200), ("C", 6000), ("D", 6050)]).1).length ≤
        [(("A", 100) : Marker), ("B", 200), ("C", 6000), ("D", 6050)].length - 1) :=
  c5_progress_termination _ (by decide) (by decide) (by decide)

/-- **C6, counterexample.** For the sorted non-negative input
`[(A,0),(B,1)]` (n = 2) the partitioner returns two lanes, so the claimed
bound of at most `n - 1 = 1` lanes is false; this is the clustered-pair case
where the leftover singleton is appended as an extra lane. -/
theorem c6_counterexample :
    overlap_recursive [("A", 0), ("B", 1)] = .ok [[("A", 0)], [("B", 1)]] ∧
    ¬ (([[("A", 0)], [("B", 1)]] : List (List Marker)).length ≤
        ([("A", 0), ("B", 1)] : List Marker).length - 1) := by
  exact ⟨by decide, by decide⟩

/-- **C6, amended.** On a sorted list of `n ≥ 2` markers with non-negative
positions the returned LaneSet has at most `n` lanes (not `n - 1`), and each
lane after lane 0 has at most as many markers (not strictly fewer) as the
overflow list fed into the pass that produced it, the chain of those
overflow lists being `passFeeds`. -/
theorem c6_amended_lane_bounds (l : List Marker) (lanes : List (List Marker))
    (hsort : SortedByPos l) (hpos : NonNegPos l) (hlen : 2 ≤ l.length)
    (hres : overlap_recursive l = .ok lanes) :
    lanes.length ≤ l.length ∧
    ∀ j : Nat, (lanes.getD (j + 1) []).length ≤
      ((passFeeds l.length (checkScan 5000 (-100000) l).1).getD j []).length := by
  have h1 : 1 < l.length := hlen
  rw [overlap_recursive_pos l h1] at hres
  by_cases he : (checkScan 5000 (-100000) l).1 = []
  · rw [if_pos he] at hres
    injection hres with hres
    subst hres
    constructor
    · simp only [List.length_singleton]
      omega
    · intro j
      simp
  · rw [if_neg he] at hres
    obtain ⟨tail, htail, hfeed, hbd⟩ := overlapLoop_shape l.length _ _ _ hres
    have hsub := checkScan_fst_sublist 5000 l (-100000)
    have hpos2 : NonNegPos (checkScan 5000 (-100000) l).1 := fun x hx =>
      hpos x (hsub.mem hx)
    have h12 : 1 ≤ (checkScan 5000 (-100000) l).1.length := by
      have := List.length_pos.mpr he
      omega
    have hlt : (checkScan 5000 (-100000) l).1.length < l.length :=
      checkScan_default_length_lt l (by intro h0; rw [h0] at hlen; simp at hlen) hpos
    have hfl := passFeeds_length l.length _ hpos2 h12 (by omega)
    subst htail
    constructor
    · simp only [List.length_append, List.length_singleton]
      omega
    · intro j
      have hcons : ([(checkScan 5000 (-100000) l).2] ++ tail : List (List Marker)) =
          (checkScan 5000 (-100000) l).2 :: tail := by simp
      rw [hcons, List.getD_cons_succ]
      exact hbd j

/-- Witness for `c6_amended_lane_bounds` at the spec's concrete scenario. -/
theorem c6_amended_lane_bounds_witness :
    ([[("A", 100), ("C", 6000)], [("B", 200), ("D", 6050)],
        ([] : List Marker)] : List (List Marker)).length ≤
      [(("A", 100) : Marker), ("B", 200), ("C", 6000), ("D", 6050)].length ∧
    ∀ j : Nat,
      (([[("A", 100), ("C", 6000)], [("B", 200), ("D", 6050)],
          ([] : List Marker)] : List (List Marker)).getD (j + 1) []).length ≤
        ((passFeeds [(("A", 100) : Marker), ("B", 200), ("C", 6000), ("D", 6050)].length
          (checkScan 5000 (-100000)
            [("A", 100), ("B", 200), ("C", 6000), ("D", 6050)]).1).getD j []).length :=
  c6_amended_lane_bounds _ _ (by decide) (by decide) (by decide) (by decide)

/-- **C3.** Minimum-spacing relative to scan order: on a sorted input, two
markers that are adjacent in the input and both land in the same lane (the
earlier before the later) are more than `minimum = 5000` apart — the gap is
measured against the immediately-preceding *scanned* marker, whose position
is at least the earlier marker's, so acceptance forces their difference
above the threshold. -/
theorem c3_scan_adjacent_spacing (l u v : List Marker) (a b : Marker)
    (lanes : List (List Marker)) (L : List Marker)
    (hsort : SortedByPos l) (hadj : l = u ++ a :: b :: v)
    (hres : overlap_recursive l = .ok lanes) (hL : L ∈ lanes)
    (hsub : [a, b].Sublist L) : 5000 < b.2 - a.2 := by
  have hsort' : l.Pairwise (fun a b => a.2 ≤ b.2) := hsort
  have h1 : 1 < l.length := by
    rw [hadj]
    simp only [List.length_append, List.length_cons]
    omega
  rw [overlap_recursive_pos l h1] at hres
  by_cases he : (checkScan 5000 (-100000) l).1 = []
  · rw [if_pos he] at hres
    injection hres with hres
    subst hres
    have hLn : L = (checkScan 5000 (-100000) l).2 := List.mem_singleton.mp hL
    subst hLn
    exact checkScan_snd_sep 5000 l (-100000) a b hsort' hsub
  · rw [if_neg he] at hres
    have hsort1 : ((checkScan 5000 (-100000) l).1).Pairwise (fun a b => a.2 ≤ b.2) :=
      hsort'.sublist (checkScan_fst_sublist 5000 l (-100000))
    rcases overlapLoop_mem l.length _ _ _ hsort1 hres L hL with hacc | hpass | hshort
    · have hLn : L = (checkScan 5000 (-100000) l).2 := List.mem_singleton.mp hacc
      subst hLn
      exact checkScan_snd_sep 5000 l (-100000) a b hsort' hsub
    · obtain ⟨p, hp, hLp⟩ := hpass
      subst hLp
      exact checkScan_snd_sep 5000 p (-100000) a b hp hsub
    · have := hsub.length_le
      simp at this
      omega

/-- Witness for `c3_scan_adjacent_spacing`: in `[(A,0),(B,6000)]` the two
adjacent markers share lane 0 and are 6000 > 5000 apart. -/
theorem c3_scan_adjacent_spacing_witness : (5000 : Int) < (("B", (6000 : Int)) :
    Marker).2 - (("A", (0 : Int)) : Marker).2 :=
  c3_scan_adjacent_spacing [("A", 0), ("B", 6000)] [] [] ("A", 0) ("B", 6000)
    [[("A", 0), ("B", 6000)]] [("A", 0), ("B", 6000)]
    (by decide) rfl (by decide) (by decide) (by decide)

/-- **C10.** The two lists returned by `check_overlap` form an
order-preserving partition of its input: each is a subsequence of the input
(in the input's relative order), their concatenation is a permutation of the
input, and every marker value occurs in the two lists jointly exactly as
often as in the input. -/
theorem c10_order_preserving_partition (l : List Marker) (m : Int)
    (ov nov : List Marker) (hlen : 2 ≤ l.length)
    (h : check_overlap l m = some (ov, nov)) :
    ov.Sublist l ∧ nov.Sublist l ∧ List.Perm (ov ++ nov) l ∧
      ∀ x : Marker, l.count x = ov.count x + nov.count x := by
  have h1 : 1 < l.length := hlen
  rw [check_overlap, if_pos h1] at h
  injection h with h
  have hov : ov = (checkScan m (-100000) l).1 := by rw [h]
  have hnov : nov = (checkScan m (-100000) l).2 := by rw [h]
  subst hov
  subst hnov
  refine ⟨checkScan_fst_sublist m l (-100000), checkScan_snd_sublist m l (-100000),
    checkScan_perm m l (-100000), fun x => ?_⟩
  have hc : List.count x ((checkScan m (-100000) l).1 ++ (checkScan m (-100000) l).2) =
      List.count x l :=
    List.Perm.countP_eq _ (checkScan_perm m l (-100000))
  rw [List.count_append] at hc
  omega

/-- Witness for `c10_order_preserving_partition` at the spec's concrete
scenario. -/
theorem c10_order_preserving_partition_witness :
    ([(("B", 200) : Marker), ("D", 6050)]).Sublist
        [("A", 100), ("B", 200), ("C", 6000), ("D", 6050)] ∧
    ([(("A", 100) : Marker), ("C", 6000)]).Sublist
        [("A", 100), ("B", 200), ("C", 6000), ("D", 6050)] ∧
    List.Perm ([(("B", 200) : Marker), ("D", 6050)] ++ [("A", 100), ("C", 6000)])
        [("A", 100), ("B", 200), ("C", 6000), ("D", 6050)] ∧
    ∀ x : Marker, ([(("A", 100) : Marker), ("B", 200), ("C", 6000), ("D", 6050)]).count x =
      ([(("B", 200) : Marker), ("D", 6050)]).count x +
        ([(("A", 100) : Marker), ("C", 6000)]).count x :=
  c10_order_preserving_partition
    [("A", 100), ("B", 200), ("C", 6000), ("D", 6050)] 5000
    [("B", 200), ("D", 6050)] [("A", 100), ("C", 6000)] (by decide) (by decide)

/-- **C9, counterexample.** For `minimum = 100000` and the marker list
`[(A,0),(B,1)]` — whose first marker has non-negative position — the first
scanned marker is *not* classified as clear: the sentinel gap is
`0 - (-100000) = 100000 ≤ minimum`, so both markers go to the overlap list
and the accepted list is empty. -/
theorem c9_counterexample :
    (check_overlap [("A", 0), ("B", 1)] 100000).map
      (fun r => decide ((("A", (0 : Int)) : Marker) ∈ r.2)) = some false := by
  decide

/-- **C9, amended.** For every `minimum` strictly below the first marker's
position plus `100000` (in particular for the default `5000` whenever the
first position is non-negative), the sentinel `-100000` is smaller than
`position - minimum`, and `check_overlap` classifies the first scanned
marker as clear: it becomes the head of the accepted list. -/
theorem c9_amended_sentinel (m : Int) (t : Marker) (rest : List Marker)
    (hne : rest ≠ []) (hm : m < t.2 + 100000) :
    (-100000 : Int) < t.2 - m ∧
    ∃ ov nov, check_overlap (t :: rest) m = some (ov, nov) ∧
      nov.head? = some t := by
  refine ⟨by omega, (checkScan m t.2 rest).1, t :: (checkScan m t.2 rest).2, ?_, rfl⟩
  have hlen : 1 < (t :: rest).length := by
    cases rest with
    | nil => exact absurd rfl hne
    | cons r rs => simp
  rw [check_overlap, if_pos hlen, checkScan_cons, if_neg (by omega)]

/-- Witness for `c9_amended_sentinel` with the default minimum and a
non-negative first position. -/
theorem c9_amended_sentinel_witness :
    (-100000 : Int) < (("A", (0 : Int)) : Marker).2 - 5000 ∧
    ∃ ov nov, check_overlap [("A", 0), ("B", 1)] 5000 = some (ov, nov) ∧
      nov.head? = some (("A", (0 : Int)) : Marker) :=
  c9_amended_sentinel 5000 ("A", 0) [("B", 1)] (by decide) (by decide)

/-! ### Facts about the loader's stable sort -/

theorem insertByPos_cons (x y : String × Int) (ys : List (String × Int)) :
    insertByPos x (y :: ys) =
      if x.2 ≤ y.2 then x :: y :: ys else y :: insertByPos x ys := rfl

theorem sortByPos_cons (x : String × Int) (xs : List (String × Int)) :
    sortByPos (x :: xs) = insertByPos x (sortByPos xs) := rfl

theorem mem_insertByPos (x z : String × Int) (l : List (String × Int)) :
    z ∈ insertByPos x l ↔ z = x ∨ z ∈ l := by
  induction l with
  | nil => simp [insertByPos]
  | cons y ys ih =>
    rw [insertByPos_cons]
    by_cases h : x.2 ≤ y.2
    · rw [if_pos h]
      simp [List.mem_cons]
    · rw [if_neg h]
      simp only [List.mem_cons, ih]
      tauto

theorem insertByPos_pairwise (x : String × Int) (l : List (String × Int))
    (h : l.Pairwise (fun a b => a.2 ≤ b.2)) :
    (insertByPos x l).Pairwise (fun a b => a.2 ≤ b.2) := by
  induction l with
  | nil => simp [insertByPos]
  | cons y ys ih =>
    rw [insertByPos_cons]
    rcases List.pairwise_cons.mp h with ⟨hy, hys⟩
    by_cases hxy : x.2 ≤ y.2
    · rw [if_pos hxy]
      refine List.pairwise_cons.mpr ⟨?_, h⟩
      intro z hz
      rcases List.mem_cons.mp hz with rfl | hz
      · exact hxy
      · exact le_trans hxy (hy z hz)
    · rw [if_neg hxy]
      refine List.pairwise_cons.mpr ⟨?_, ih hys⟩
      intro z hz
      rcases (mem_insertByPos x z ys).mp hz with rfl | hz
      · omega
      · exact hy z hz

/-- The markers of the loader's sorted list are sorted ascending by
position. -/
theorem sortByPos_pairwise (l : List (String × Int)) :
    (sortByPos l).Pairwise (fun a b => a.2 ≤ b.2) := by
  induction l with
  | nil => exact List.Pairwise.nil
  | cons x xs ih => rw [sortByPos_cons]; exact insertByPos_pairwise x _ ih

theorem filter_insertByPos (x : String × Int) (l : List (String × Int)) (p : Int) :
    (insertByPos x l).filter (fun a => decide (a.2 = p)) =
      if x.2 = p then x :: l.filter (fun a => decide (a.2 = p))
      else l.filter (fun a => decide (a.2 = p)) := by
  induction l with
  | nil =>
    by_cases hx : x.2 = p
    · simp [insertByPos, List.filter_cons, hx]
    · simp [insertByPos, List.filter_cons, hx]
  | cons y ys ih =>
    rw [insertByPos_cons]
    by_cases hxy : x.2 ≤ y.2
    · rw [if_pos hxy]
      by_cases hx : x.2 = p
      · simp [List.filter_cons, hx]
      · simp [List.filter_cons, hx]
    · rw [if_neg hxy]
      by_cases hx : x.2 = p
      · have hy : ¬ y.2 = p := by omega
        rw [if_pos hx]
        rw [List.filter_cons, List.filter_cons]
        rw [if_neg (by simp [hy] : ¬ decide (y.2 = p) = true),
          if_neg (by simp [hy] : ¬ decide (y.2 = p) = true)]
        rw [ih, if_pos hx]
      · rw [if_neg hx]
        rw [List.filter_cons, List.filter_cons]
        by_cases hy : y.2 = p
        · rw [if_pos (by simp [hy] : decide (y.2 = p) = true),
            if_pos (by simp [hy] : decide (y.2 = p) = true)]
          rw [ih, if_neg hx]
        · rw [if_neg (by simp [hy] : ¬ decide (y.2 = p) = true),
            if_neg (by simp [hy] : ¬ decide (y.2 = p) = true)]
          rw [ih, if_neg hx]

/-- Stability of the loader's sort: among markers of any fixed position the
sorted list keeps exactly the source sublist, in source order. -/
theorem filter_sortByPos (l : List (String × Int)) (p : Int) :
    (sortByPos l).filter (fun a => decide (a.2 = p)) =
      l.filter (fun a => decide (a.2 = p)) := by
  induction l with
  | nil => rfl
  | cons x xs ih =>
    rw [sortByPos_cons, filter_insertByPos]
    by_cases hx : x.2 = p
    · rw [if_pos hx, ih, List.filter_cons]
      simp [hx]
    · rw [if_neg hx, ih, List.filter_cons]
      simp [hx]

/-! ### Facts about the loader's grouping loop -/

theorem addTrack_nil (g t : String) (pos : Int) :
    addTrack [] g t pos = [(g, [(t, pos)])] := rfl

theorem addTrack_cons (g2 : String) (l : List (String × Int))
    (rest : List (String × List (String × Int))) (g t : String) (pos : Int) :
    addTrack ((g2, l) :: rest) g t pos =
      if g2 = g then (g2, l ++ [(t, pos)]) :: rest
      else (g2, l) :: addTrack rest g t pos := rfl

theorem lookupGene_nil (g : String) : lookupGene g [] = none := rfl

theorem lookupGene_cons (g g2 : String) (l : List (String × Int))
    (rest : List (String × List (String × Int))) :
    lookupGene g ((g2, l) :: rest) = if g2 = g then some l else lookupGene g rest := rfl

theorem lookupGene_addTrack_same (ti : List (String × List (String × Int)))
    (g t : String) (pos : Int) :
    lookupGene g (addTrack ti g t pos) =
      some ((lookupGene g ti).getD [] ++ [(t, pos)]) := by
  induction ti with
  | nil =>
    rw [addTrack_nil, lookupGene_cons, if_pos rfl, lookupGene_nil]
    rfl
  | cons e rest ih =>
    obtain ⟨g2, l⟩ := e
    rw [addTrack_cons]
    by_cases h : g2 = g
    · rw [if_pos h, lookupGene_cons, if_pos h, lookupGene_cons, if_pos h]
      rfl
    · rw [if_neg h, lookupGene_cons, if_neg h, lookupGene_cons, if_neg h]
      exact ih

theorem lookupGene_addTrack_other (ti : List (String × List (String × Int)))
    (g g0 t : String) (pos : Int) (h : g0 ≠ g) :
    lookupGene g0 (addTrack ti g t pos) = lookupGene g0 ti := by
  induction ti with
  | nil =>
    rw [addTrack_nil, lookupGene_cons, if_neg (fun hc => h hc.symm), lookupGene_nil]
  | cons e rest ih =>
    obtain ⟨g2, l⟩ := e
    rw [addTrack_cons]
    by_cases h2 : g2 = g
    · rw [if_pos h2, lookupGene_cons, lookupGene_cons]
      subst h2
      rw [if_neg (fun hc => h hc.symm), if_neg (fun hc => h hc.symm)]
    · rw [if_neg h2, lookupGene_cons, lookupGene_cons]
      by_cases h3 : g2 = g0
      · rw [if_pos h3, if_pos h3]
      · rw [if_neg h3, if_neg h3]
        exact ih

theorem lookupGene_isSome_iff (g : String)
    (ti : List (String × List (String × Int))) :
    (lookupGene g ti).isSome ↔ g ∈ ti.map Prod.fst := by
  induction ti with
  | nil => simp [lookupGene_nil]
  | cons e rest ih =>
    obtain ⟨g2, l⟩ := e
    rw [lookupGene_cons]
    by_cases h : g2 = g
    · subst h
      simp
    · rw [if_neg h]
      simp only [List.map_cons, List.mem_cons, ih]
      constructor
      · exact Or.inr
      · rintro (hc | hc)
        · exact absurd hc.symm h
        · exact hc

theorem addTrack_map_fst (ti : List (String × List (String × Int)))
    (g t : String) (pos : Int) :
    (addTrack ti g t pos).map Prod.fst =
      if g ∈ ti.map Prod.fst then ti.map Prod.fst
      else ti.map Prod.fst ++ [g] := by
  induction ti with
  | nil => simp [addTrack_nil]
  | cons e rest ih =>
    obtain ⟨g2, l⟩ := e
    rw [addTrack_cons]
    by_cases h : g2 = g
    · subst h
      simp
    · rw [if_neg h]
      simp only [List.map_cons]
      rw [ih]
      have hne : ¬ g = g2 := fun hc => h hc.symm
      by_cases hm : g ∈ rest.map Prod.fst
      · rw [if_pos hm, if_pos (by simp [hm])]
      · rw [if_neg hm, if_neg (by simp [hne, hm])]
        simp

theorem addTrack_keysNodup (ti : List (String × List (String × Int)))
    (g t : String) (pos : Int) (h : KeysNodup ti) :
    KeysNodup (addTrack ti g t pos) := by
  have h2 : (ti.map Prod.fst).Nodup := h
  show ((addTrack ti g t pos).map Prod.fst).Nodup
  rw [addTrack_map_fst]
  by_cases hm : g ∈ ti.map Prod.fst
  · rw [if_pos hm]
    exact h2
  · rw [if_neg hm]
    refine h2.append (List.nodup_singleton g) ?_
    intro x hx hxg
    exact hm ((List.mem_singleton.mp hxg) ▸ hx)

theorem read_track_lines_nil (ti : List (String × List (String × Int))) :
    read_track_lines [] ti = .ok ti := rfl

theorem read_track_lines_cons (line : String) (rest : List String)
    (ti : List (String × List (String × Int))) :
    read_track_lines (line :: rest) ti =
      match parseLine line with
      | none => .error line
      | some (gene, track, pos) => read_track_lines rest (addTrack ti gene track pos) := rfl

theorem read_track_lines_cons_some (line : String) (rest : List String)
    (ti : List (String × List (String × Int))) (g1 t1 : String) (p1 : Int)
    (hp : parseLine line = some (g1, t1, p1)) :
    read_track_lines (line :: rest) ti = read_track_lines rest (addTrack ti g1 t1 p1) := by
  rw [read_track_lines_cons, hp]

theorem read_track_lines_cons_none (line : String) (rest : List String)
    (ti : List (String × List (String × Int))) (hp : parseLine line = none) :
    read_track_lines (line :: rest) ti = .error line := by
  rw [read_track_lines_cons, hp]

theorem read_track_lines_keysNodup (lines : List String) :
    ∀ (ti res : List (String × List (String × Int))), KeysNodup ti →
    read_track_lines lines ti = .ok res → KeysNodup res := by
  induction lines with
  | nil =>
    intro ti res hnd h
    rw [read_track_lines_nil] at h
    injection h with h
    exact h ▸ hnd
  | cons line rest ih =>
    intro ti res hnd h
    cases hp : parseLine line with
    | none =>
      rw [read_track_lines_cons_none line rest ti hp] at h
      cases h
    | some rec =>
      obtain ⟨g1, t1, p1⟩ := rec
      rw [read_track_lines_cons_some line rest ti g1 t1 p1 hp] at h
      exact ih _ _ (addTrack_keysNodup ti g1 t1 p1 hnd) h

theorem geneRecs_nil (g : String) : geneRecs [] g = [] := rfl

theorem geneRecs_cons (line : String) (rest : List String) (g : String) :
    geneRecs (line :: rest) g =
      match parseLine line with
      | some (g1, t1, p1) =>
          if g1 = g then (t1, p1) :: geneRecs rest g else geneRecs rest g
      | none => geneRecs rest g := by
  show List.filterMap _ (line :: rest) = _
  rw [List.filterMap_cons]
  cases hp : parseLine line with
  | none => rfl
  | some rec =>
    obtain ⟨g1, t1, p1⟩ := rec
    by_cases h : g1 = g
    · subst h
      simp [geneRecs]
    · simp [geneRecs, h]

theorem geneRecs_cons_some_same (line : String) (rest : List String)
    (g t1 : String) (p1 : Int) (hp : parseLine line = some (g, t1, p1)) :
    geneRecs (line :: rest) g = (t1, p1) :: geneRecs rest g := by
  rw [geneRecs_cons, hp]
  simp

theorem geneRecs_cons_some_other (line : String) (rest : List String)
    (g g1 t1 : String) (p1 : Int) (hp : parseLine line = some (g1, t1, p1))
    (hne : g1 ≠ g) : geneRecs (line :: rest) g = geneRecs rest g := by
  rw [geneRecs_cons, hp]
  simp [hne]

theorem geneRecs_cons_none (line : String) (rest : List String) (g : String)
    (hp : parseLine line = none) :
    geneRecs (line :: rest) g = geneRecs rest g := by
  rw [geneRecs_cons, hp]

/-- The fundamental loop invariant of the loader: after a successful run over
`lines`, the entry for gene `g` is its entry in the incoming accumulator
extended with the `(track, position)` pairs of the lines naming `g`, in
source order; a gene absent from both stays absent. -/
theorem read_track_lines_lookup (lines : List String) :
    ∀ (ti res : List (String × List (String × Int))),
    read_track_lines lines ti = .ok res → ∀ g : String,
    lookupGene g res =
      match lookupGene g ti with
      | some r => some (r ++ geneRecs lines g)
      | none => if geneRecs lines g = [] then none else some (geneRecs lines g) := by
  induction lines with
  | nil =>
    intro ti res h g
    rw [read_track_lines_nil] at h
    injection h with h
    subst h
    rw [geneRecs_nil]
    cases hl : lookupGene g ti with
    | none => simp
    | some r => simp [hl]
  | cons line rest ih =>
    intro ti res h g
    cases hp : parseLine line with
    | none =>
      rw [read_track_lines_cons_none line rest ti hp] at h
      cases h
    | some rec =>
      obtain ⟨g1, t1, p1⟩ := rec
      rw [read_track_lines_cons_some line rest ti g1 t1 p1 hp] at h
      have hstep := ih _ _ h g
      by_cases hg : g1 = g
      · subst hg
        rw [geneRecs_cons_some_same line rest g1 t1 p1 hp]
        rw [lookupGene_addTrack_same ti g1 t1 p1] at hstep
        simp only at hstep
        rw [hstep]
        cases hl : lookupGene g1 ti with
        | none => simp [hl]
        | some r => simp [hl]
      · rw [geneRecs_cons_some_other line rest g g1 t1 p1 hp hg]
        rw [lookupGene_addTrack_other ti g1 g t1 p1 (fun hc => hg hc.symm)] at hstep
        exact hstep

/-- In an accumulator with distinct keys, membership of an entry pins down
the lookup. -/
theorem lookupGene_of_mem (ti : List (String × List (String × Int)))
    (hnd : KeysNodup ti) (g : String) (l : List (String × Int))
    (hm : (g, l) ∈ ti) : lookupGene g ti = some l := by
  induction ti with
  | nil => cases hm
  | cons e rest ih =>
    obtain ⟨g2, l2⟩ := e
    have hnd2 : ((g2, l2) :: rest).map Prod.fst = g2 :: rest.map Prod.fst := rfl
    have hnd3 : (g2 :: rest.map Prod.fst).Nodup := by
      have := hnd
      rw [KeysNodup, hnd2] at this
      exact this
    rcases List.mem_cons.mp hm with heq | hmem
    · injection heq with h1 h2
      subst h1
      subst h2
      rw [lookupGene_cons, if_pos rfl]
    · rw [lookupGene_cons]
      have hrest : KeysNodup rest := by
        show (rest.map Prod.fst).Nodup
        exact (List.nodup_cons.mp hnd3).2
      by_cases h : g2 = g
      · subst h
        have : g2 ∈ rest.map Prod.fst :=
          List.mem_map.mpr ⟨(g2, l), hmem, rfl⟩
        exact absurd this (List.nodup_cons.mp hnd3).1
      · rw [if_neg h]
        exact ih hrest hmem

theorem read_track_file_ok (content : String)
    (res : List (String × List (String × Int)))
    (h : read_track_file content = .ok res) :
    ∃ ti, read_track_lines (pyLines content) [] = .ok ti ∧
      res = ti.map (fun gl => (gl.1, sortByPos gl.2)) := by
  rw [read_track_file] at h
  cases hl : read_track_lines (pyLines content) [] with
  | error line => rw [hl] at h; cases h
  | ok ti =>
    rw [hl] at h
    injection h with h
    exact ⟨ti, rfl, h.symm⟩

theorem read_track_lines_lookup_nil (lines : List String)
    (res : List (String × List (String × Int)))
    (h : read_track_lines lines [] = .ok res) (g : String) :
    lookupGene g res =
      if geneRecs lines g = [] then none else some (geneRecs lines g) := by
  have hchar := read_track_lines_lookup lines [] res h g
  rw [lookupGene_nil] at hchar
  exact hchar

/-- **C7.** Loader sort correctness: for every successful load and every gene
present in the result, that gene's marker list is sorted ascending by
position and, at each fixed position, keeps exactly the records of the
source lines for that gene in their order of appearance (stability); in
particular the two-line `CHST13` input comes back with `var2`'s position 50
before `var1`'s 100. -/
theorem c7_loader_sort (content : String)
    (res : List (String × List (String × Int))) (g : String)
    (l : List (String × Int)) (hres : read_track_file content = .ok res)
    (hmem : (g, l) ∈ res) :
    l.Pairwise (fun a b => a.2 ≤ b.2) ∧
    (∀ p : Int, l.filter (fun a => decide (a.2 = p)) =
      (geneRecs (pyLines content) g).filter (fun a => decide (a.2 = p))) ∧
    read_track_file "CHST13\tvar1\t100\nCHST13\tvar2\t50\n" =
      .ok [("CHST13", [("var2", 50), ("var1", 100)])] := by
  obtain ⟨ti, hok, hmap⟩ := read_track_file_ok content res hres
  subst hmap
  obtain ⟨⟨g0, raw⟩, hin, heq⟩ := List.mem_map.mp hmem
  injection heq with h1 h2
  subst h1
  subst h2
  have hnd : KeysNodup ti := by
    refine read_track_lines_keysNodup (pyLines content) [] ti ?_ hok
    show (([] : List (String × List (String × Int))).map Prod.fst).Nodup
    simp
  have hlook := lookupGene_of_mem ti hnd g0 raw hin
  have hchar := read_track_lines_lookup_nil (pyLines content) ti hok g0
  rw [hlook] at hchar
  by_cases hrec : geneRecs (pyLines content) g0 = []
  · rw [if_pos hrec] at hchar
    cases hchar
  · rw [if_neg hrec] at hchar
    injection hchar with hchar
    refine ⟨sortByPos_pairwise raw, ?_, by decide⟩
    intro p
    rw [filter_sortByPos, hchar]

/-- Witness for `c7_loader_sort` at the spec's concrete loader scenario. -/
theorem c7_loader_sort_witness :
    ([(("var2", 50) : String × Int), ("var1", 100)]).Pairwise
        (fun a b => a.2 ≤ b.2) ∧
    (∀ p : Int, ([(("var2", 50) : String × Int), ("var1", 100)]).filter
        (fun a => decide (a.2 = p)) =
      (geneRecs (pyLines "CHST13\tvar1\t100\nCHST13\tvar2\t50\n")
        "CHST13").filter (fun a => decide (a.2 = p))) ∧
    read_track_file "CHST13\tvar1\t100\nCHST13\tvar2\t50\n" =
      .ok [("CHST13", [("var2", 50), ("var1", 100)])] :=
  c7_loader_sort "CHST13\tvar1\t100\nCHST13\tvar2\t50\n"
    [("CHST13", [("var2", 50), ("var1", 100)])] "CHST13"
    [("var2", 50), ("var1", 100)] (by decide) (by decide)

/-- **C8, counterexample.** A record with four tab-separated fields — a wrong
field count — does *not* trigger an error: the loader reads the first three
fields and silently ignores the rest, returning a successful load. -/
theorem c8_counterexample :
    (splitOnChar '\t' (pyStrip "A\tB\t5\tEXTRA".data)).length = 4 ∧
    read_track_file "A\tB\t5\tEXTRA\n" = .ok [("A", [("B", 5)])] :=
  ⟨by decide, by decide⟩

theorem read_track_lines_fail_fast (good : List String) :
    ∀ (ti : List (String × List (String × Int))) (bad : String)
    (rest : List String),
    (∀ x ∈ good, (parseLine x).isSome) → parseLine bad = none →
    read_track_lines (good ++ bad :: rest) ti = .error bad := by
  induction good with
  | nil =>
    intro ti bad rest _ hbad
    rw [List.nil_append]
    exact read_track_lines_cons_none bad rest ti hbad
  | cons x good ih =>
    intro ti bad rest hgood hbad
    have hx := hgood x (by simp)
    obtain ⟨⟨g1, t1, p1⟩, hp⟩ := Option.isSome_iff_exists.mp hx
    rw [List.cons_append, read_track_lines_cons_some x _ ti g1 t1 p1 hp]
    exact ih _ bad rest (fun y hy => hgood y (by simp [hy])) hbad

theorem parseLine_short (line : String)
    (h : (splitOnChar '\t' (pyStrip line.data)).length < 3) :
    parseLine line = none := by
  have heq : parseLine line =
      match splitOnChar '\t' (pyStrip line.data) with
      | gene :: track :: pos :: _ =>
          (pyInt? pos).map (fun n => (String.mk gene, String.mk track, n))
      | _ => none := rfl
  rw [heq]
  cases hs : splitOnChar '\t' (pyStrip line.data) with
  | nil => rfl
  | cons a fs =>
    cases fs with
    | nil => rfl
    | cons b fs2 =>
      cases fs2 with
      | nil => rfl
      | cons c fs3 =>
        rw [hs] at h
        simp at h
        omega

theorem parseLine_isSome_iff (line : String) (gene track pos : List Char)
    (extra : List (List Char))
    (hs : splitOnChar '\t' (pyStrip line.data) = gene :: track :: pos :: extra) :
    (parseLine line).isSome ↔ (pyInt? pos).isSome := by
  have heq : parseLine line =
      match splitOnChar '\t' (pyStrip line.data) with
      | gene :: track :: pos :: _ =>
          (pyInt? pos).map (fun n => (String.mk gene, String.mk track, n))
      | _ => none := rfl
  rw [heq, hs]
  cases hip : pyInt? pos <;> simp [hip]

/-- **C8, amended.** The loader raises exactly on records with *fewer* than
three tab-separated fields or a third field that is not an integer literal —
a record with more than three fields is accepted with the extra fields
ignored; the error occurs at the first such record, and no partial result is
returned. -/
theorem c8_amended_fail_fast (content : String) (good : List String)
    (bad : String) (rest : List String)
    (hsplit : pyLines content = good ++ bad :: rest)
    (hgood : ∀ x ∈ good, (parseLine x).isSome)
    (hbad : parseLine bad = none) :
    read_track_file content = .error bad ∧
    (∀ line : String, (splitOnChar '\t' (pyStrip line.data)).length < 3 →
      parseLine line = none) ∧
    (∀ (line : String) (fs : List (List Char)),
      splitOnChar '\t' (pyStrip line.data) = fs → 3 ≤ fs.length →
      ((parseLine line).isSome ↔ (pyInt? (fs.getD 2 [])).isSome)) := by
  refine ⟨?_, fun line h => parseLine_short line h, ?_⟩
  · rw [read_track_file, hsplit,
      read_track_lines_fail_fast good [] bad rest hgood hbad]
  · intro line fs hs hlen
    cases fs with
    | nil => simp at hlen
    | cons a fs2 =>
      cases fs2 with
      | nil => simp at hlen
      | cons b fs3 =>
        cases fs3 with
        | nil => simp at hlen
        | cons c fs4 => exact parseLine_isSome_iff line a b c fs4 hs

/-- Witness for `c8_amended_fail_fast`: a well-formed first line followed by
a one-field line makes the whole load fail with that second line. -/
theorem c8_amended_fail_fast_witness :
    read_track_file "G\tt\t1\nBAD\n" = .error "BAD" ∧
    (∀ line : String, (splitOnChar '\t' (pyStrip line.data)).length < 3 →
      parseLine line = none) ∧
    (∀ (line : String) (fs : List (List Char)),
      splitOnChar '\t' (pyStrip line.data) = fs → 3 ≤ fs.length →
      ((parseLine line).isSome ↔ (pyInt? (fs.getD 2 [])).isSome)) :=
  c8_amended_fail_fast "G\tt\t1\nBAD\n" ["G\tt\t1"] "BAD" []
    (by decide) (by decide) (by decide)
